import Mathlib

/-!
Verification of the pubtools task lifecycle module
(`src/pubtools/_impl/pluggy.py`).

The module wires a pluggy plugin manager to a `task_context` context
manager.  `task_context` resolves hooks, dispatches `task_start`, runs the
protected block, derives a boolean `failed` from how the block terminated
(normal return, `SystemExit`, `Exception`, or any other `BaseException`),
and dispatches `task_stop(failed=failed)` in a `finally` clause before the
original termination propagates.

The embedding below models hook implementations symbolically: a start
implementation either returns, raises, or registers a new stop
implementation (the behaviours the lifecycle claims depend on); a stop
implementation either returns or raises.  The registry is threaded
explicitly through dispatch, and `task_context` produces the event trace
plus the outcome observed by the caller.
-/

namespace Pubtools

/-- Python values that can appear as the `code` attribute of a
`SystemExit`: `None` (from a bare `sys.exit()`), an integer status, or a
message string. -/
inductive PyCode where
  | none
  | int (n : Int)
  | str (s : String)
deriving DecidableEq, Repr

/-- Embeds the Python comparison `exit.code != 0` from `task_context`:
`None != 0` and `"msg" != 0` are both `True` in Python; an integer
compares numerically. -/
def PyCode.neZero : PyCode → Bool
  | .int n => n != 0
  | .none => true
  | .str _ => true

/-- Behaviour of a `task_stop` implementation: return normally or raise
the exception tagged `e`. -/
inductive StopBehavior where
  | ok
  | raise (e : Nat)
deriving DecidableEq, Repr

/-- A registered `task_stop` implementation: an identity plus its
behaviour when invoked. -/
structure StopImpl where
  id : Nat
  behavior : StopBehavior
deriving DecidableEq, Repr

/-- Behaviour of a `task_start` implementation: return normally, raise
the exception tagged `e`, or register a new `task_stop` implementation
(the use case named in the `task_start` hookspec docstring). -/
inductive StartBehavior where
  | ok
  | raise (e : Nat)
  | registerStop (impl : StopImpl)
deriving DecidableEq, Repr

/-- A registered `task_start` implementation. -/
structure StartImpl where
  id : Nat
  behavior : StartBehavior
deriving DecidableEq, Repr

/-- The plugin manager registry restricted to the two built-in specs:
the ordered registration lists for `task_start` and `task_stop`. -/
structure PMState where
  startImpls : List StartImpl
  stopImpls : List StopImpl
deriving DecidableEq, Repr

/-- Observable events of one lifecycle session: the two hook dispatches
(`pm.hook.task_start()` and `pm.hook.task_stop(failed=...)`), the
individual implementation invocations inside them, and the protected
block running. -/
inductive Event where
  | startDispatch
  | startImplRun (id : Nat)
  | blockRun
  | stopDispatch (failed : Bool)
  | stopImplRun (id : Nat) (failed : Bool)
deriving DecidableEq, Repr

/-- Selects the coarse lifecycle marks (dispatches and the block run),
dropping the per-implementation events. -/
def Event.isMark : Event → Bool
  | .startDispatch => true
  | .blockRun => true
  | .stopDispatch _ => true
  | _ => false

/-- `true` iff this start implementation raises when invoked. -/
def StartImpl.raises (i : StartImpl) : Bool :=
  match i.behavior with
  | .raise _ => true
  | _ => false

/-- `true` iff this stop implementation raises when invoked. -/
def StopImpl.raises (i : StopImpl) : Bool :=
  match i.behavior with
  | .raise _ => true
  | _ => false

/-- Dispatch of `pm.hook.task_start()`: each implementation runs in turn,
threading the registry (so a `registerStop` takes effect for later
calls); the first implementation that raises terminates the call
sequence and the error propagates (pluggy's fail-fast call semantics).
Returns the events produced, the registry afterwards, and the raised
error if any. -/
def runStartImpls : List StartImpl → PMState → List Event × PMState × Option Nat
  | [], s => ([], s, Option.none)
  | ⟨n, .ok⟩ :: rest, s =>
    let r := runStartImpls rest s
    (Event.startImplRun n :: r.1, r.2)
  | ⟨n, .raise e⟩ :: _, s => ([Event.startImplRun n], s, some e)
  | ⟨n, .registerStop impl⟩ :: rest, s =>
    let r := runStartImpls rest { s with stopImpls := s.stopImpls ++ [impl] }
    (Event.startImplRun n :: r.1, r.2)

/-- Dispatch of `pm.hook.task_stop(failed=failed)`: each implementation
runs in turn with the `failed` argument; the first one that raises
terminates the call sequence and the error propagates. -/
def runStopImpls (failed : Bool) : List StopImpl → List Event × Option Nat
  | [] => ([], Option.none)
  | ⟨n, .ok⟩ :: rest =>
    let r := runStopImpls failed rest
    (Event.stopImplRun n failed :: r.1, r.2)
  | ⟨n, .raise e⟩ :: _ => ([Event.stopImplRun n failed], some e)

/-- How the protected block of a `task_context` session terminates:
normal return, `SystemExit` carrying a code, an `Exception` (tagged by a
number standing for the error object's identity), or any other
`BaseException` such as `KeyboardInterrupt` (a signal, likewise
tagged). -/
inductive Outcome where
  | normal
  | exit (code : PyCode)
  | error (e : Nat)
  | signal (s : Nat)
deriving DecidableEq, Repr

/-- The `failed` value `task_context` hands to `task_stop`, as derived by
its try/except chain: `failed = True` is assigned before the block;
normal completion sets it to `False`; `except SystemExit` sets it to
`exit.code != 0`; `except Exception` sets it to `True`; any other
`BaseException` matches no clause, leaving the initial `True`. -/
def classify : Outcome → Bool
  | .normal => false
  | .exit c => c.neZero
  | .error _ => true
  | .signal _ => true

/-- The `task_context` context manager, after `resolve_hooks` has
populated the registry `s0` (discovery is modelled separately by
`resolve_hooks` below).  It dispatches `task_start`; if that raises, the
`try` block is never entered, so no `task_stop` runs and the error
propagates.  Otherwise the block runs, `failed` is classified, and the
`finally` clause dispatches `task_stop(failed=failed)` against the live
registry; a stop implementation that raises replaces the in-flight
termination (a Python `finally` exception shadows the original),
otherwise the block's own termination propagates unchanged. -/
def task_context (s0 : PMState) (block : Outcome) : List Event × Outcome :=
  match runStartImpls s0.startImpls s0 with
  | (evs, _, some e) => (Event.startDispatch :: evs, Outcome.error e)
  | (evs, s1, Option.none) =>
    match runStopImpls (classify block) s1.stopImpls with
    | (sevs, some e2) =>
      (Event.startDispatch :: evs
        ++ [Event.blockRun, Event.stopDispatch (classify block)] ++ sevs,
       Outcome.error e2)
    | (sevs, Option.none) =>
      (Event.startDispatch :: evs
        ++ [Event.blockRun, Event.stopDispatch (classify block)] ++ sevs,
       block)

/-- The stop implementations registered by a start-implementation list as
it runs (in order). -/
def registeredBy : List StartImpl → List StopImpl
  | [] => []
  | ⟨_, .registerStop impl⟩ :: rest => impl :: registeredBy rest
  | _ :: rest => registeredBy rest

/-- The stop registry at `task_stop` dispatch time: the entries present
at session entry followed by those registered by the start phase. -/
def finalStops (s : PMState) : List StopImpl :=
  s.stopImpls ++ registeredBy s.startImpls

/-- The coarse lifecycle marks of a session's event trace. -/
def marks (r : List Event × Outcome) : List Event :=
  r.1.filter Event.isMark

/-- A registered hook implementation as the generic dispatcher sees it:
an identity plus the subset of the spec's parameter names it declared. -/
structure HookImpl where
  id : Nat
  declaredParams : List String
deriving DecidableEq, Repr

/-- Modelled from the spec: the dispatch of `call(spec_name, **kwargs)`
performed by the external pluggy library for `pm.hook.<spec>` — it
invokes every currently registered implementation for the spec, in
registration order, each bound by name to the subset of the kwargs it
declared.  Returns, in invocation order, each implementation's identity
and the kwargs bound to it. -/
def call (impls : List HookImpl) (kwargs : List (String × Nat)) :
    List (Nat × List (String × Nat)) :=
  impls.map fun i => (i.id, kwargs.filter fun kv => i.declaredParams.contains kv.1)

/-- An installed-package entry point: the module it resolves to and the
hook implementations that registering module defines at import time. -/
structure EntryPoint where
  moduleName : String
  regs : List HookImpl
deriving DecidableEq, Repr

/-- Process-wide import state: which modules have been imported
(`sys.modules`) and the effective registered-implementation set. -/
structure World where
  imported : List String
  registry : List HookImpl
deriving DecidableEq, Repr

/-- Modelled from the spec: `ep.resolve()` imports the entry point's
module; Python's import cache means a module already imported is not
executed again, so its registrations (an import side effect) happen only
on the first resolution. -/
def resolveEP (w : World) (ep : EntryPoint) : World :=
  if ep.moduleName ∈ w.imported then w
  else { imported := w.imported ++ [ep.moduleName], registry := w.registry ++ ep.regs }

/-- `resolve_hooks`: resolves every `console_scripts` entry point whose
module name starts with `pubtools`, then every `pubtools.hooks` entry
point (unfiltered), in order.  The import-cache behaviour of each
resolution is modelled by `resolveEP`. -/
def resolve_hooks (console : List EntryPoint) (hooks : List EntryPoint)
    (w : World) : World :=
  let w1 := (console.filter fun ep => ep.moduleName.startsWith "pubtools").foldl resolveEP w
  hooks.foldl resolveEP w1

/-! Helper lemmas about the dispatch functions. -/

theorem runStartImpls_err (l : List StartImpl) (s : PMState)
    (h : ∀ i ∈ l, i.raises = false) :
    (runStartImpls l s).2.2 = Option.none := by
  induction l generalizing s with
  | nil => rfl
  | cons i rest ih =>
    obtain ⟨n, b⟩ := i
    cases b with
    | ok =>
      simpa [runStartImpls] using ih s fun j hj => h j (List.mem_cons_of_mem _ hj)
    | raise e =>
      exact absurd (h ⟨n, .raise e⟩ (List.mem_cons_self _ _)) (by simp [StartImpl.raises])
    | registerStop impl =>
      simpa [runStartImpls] using ih _ fun j hj => h j (List.mem_cons_of_mem _ hj)

theorem runStartImpls_state (l : List StartImpl) (s : PMState)
    (h : ∀ i ∈ l, i.raises = false) :
    (runStartImpls l s).2.1.stopImpls = s.stopImpls ++ registeredBy l := by
  induction l generalizing s with
  | nil => simp [runStartImpls, registeredBy]
  | cons i rest ih =>
    obtain ⟨n, b⟩ := i
    cases b with
    | ok =>
      simpa [runStartImpls, registeredBy] using
        ih s fun j hj => h j (List.mem_cons_of_mem _ hj)
    | raise e =>
      exact absurd (h ⟨n, .raise e⟩ (List.mem_cons_self _ _)) (by simp [StartImpl.raises])
    | registerStop impl =>
      have hrec := ih { s with stopImpls := s.stopImpls ++ [impl] }
        fun j hj => h j (List.mem_cons_of_mem _ hj)
      simp only [runStartImpls, registeredBy, hrec, List.append_assoc,
        List.singleton_append]

theorem runStartImpls_events (l : List StartImpl) (s : PMState)
    (h : ∀ i ∈ l, i.raises = false) :
    (runStartImpls l s).1 = l.map fun i => Event.startImplRun i.id := by
  induction l generalizing s with
  | nil => rfl
  | cons i rest ih =>
    obtain ⟨n, b⟩ := i
    cases b with
    | ok =>
      simp only [runStartImpls, List.map_cons,
        ih s fun j hj => h j (List.mem_cons_of_mem _ hj)]
    | raise e =>
      exact absurd (h ⟨n, .raise e⟩ (List.mem_cons_self _ _)) (by simp [StartImpl.raises])
    | registerStop impl =>
      simp only [runStartImpls, List.map_cons,
        ih _ fun j hj => h j (List.mem_cons_of_mem _ hj)]

theorem runStartImpls_events_shape (l : List StartImpl) (s : PMState) :
    ∀ ev ∈ (runStartImpls l s).1, ∃ n, ev = Event.startImplRun n := by
  induction l generalizing s with
  | nil => intro ev hev; cases hev
  | cons i rest ih =>
    obtain ⟨n, b⟩ := i
    cases b with
    | ok =>
      intro ev hev
      rcases List.mem_cons.mp hev with h1 | h1
      · exact ⟨n, h1⟩
      · exact ih s ev h1
    | raise e =>
      intro ev hev
      rcases List.mem_cons.mp hev with h1 | h1
      · exact ⟨n, h1⟩
      · cases h1
    | registerStop impl =>
      intro ev hev
      rcases List.mem_cons.mp hev with h1 | h1
      · exact ⟨n, h1⟩
      · exact ih _ ev h1

theorem runStopImpls_err (f : Bool) (l : List StopImpl)
    (h : ∀ i ∈ l, i.raises = false) :
    (runStopImpls f l).2 = Option.none := by
  induction l with
  | nil => rfl
  | cons i rest ih =>
    obtain ⟨n, b⟩ := i
    cases b with
    | ok =>
      simpa [runStopImpls] using ih fun j hj => h j (List.mem_cons_of_mem _ hj)
    | raise e =>
      exact absurd (h ⟨n, .raise e⟩ (List.mem_cons_self _ _)) (by simp [StopImpl.raises])

theorem runStopImpls_events (f : Bool) (l : List StopImpl)
    (h : ∀ i ∈ l, i.raises = false) :
    (runStopImpls f l).1 = l.map fun i => Event.stopImplRun i.id f := by
  induction l with
  | nil => rfl
  | cons i rest ih =>
    obtain ⟨n, b⟩ := i
    cases b with
    | ok =>
      simp only [runStopImpls, List.map_cons,
        ih fun j hj => h j (List.mem_cons_of_mem _ hj)]
    | raise e =>
      exact absurd (h ⟨n, .raise e⟩ (List.mem_cons_self _ _)) (by simp [StopImpl.raises])

/-- The full event trace and outcome of a session in which no start
implementation and no stop implementation raises: every start
implementation runs in order, then the block, then every stop
implementation (including those registered during the start phase) runs
in order with the classified `failed` value, and the block's own
termination is what the caller observes. -/
theorem task_context_eq (s : PMState) (block : Outcome)
    (h1 : ∀ i ∈ s.startImpls, i.raises = false)
    (h2 : ∀ i ∈ finalStops s, i.raises = false) :
    task_context s block =
      (Event.startDispatch :: (s.startImpls.map fun i => Event.startImplRun i.id)
        ++ [Event.blockRun, Event.stopDispatch (classify block)]
        ++ ((finalStops s).map fun i => Event.stopImplRun i.id (classify block)),
       block) := by
  have he := runStartImpls_err s.startImpls s h1
  have hs := runStartImpls_state s.startImpls s h1
  have hev := runStartImpls_events s.startImpls s h1
  rcases hr : runStartImpls s.startImpls s with ⟨evs, s1, err⟩
  rw [hr] at he hs hev
  simp only at he hs hev
  subst he hev
  have hs2 : s1.stopImpls = finalStops s := hs
  have he2 := runStopImpls_err (classify block) (finalStops s) h2
  have hev2 := runStopImpls_events (classify block) (finalStops s) h2
  rcases hr2 : runStopImpls (classify block) (finalStops s) with ⟨sevs, err2⟩
  rw [hr2] at he2 hev2
  simp only at he2 hev2
  subst he2 hev2
  unfold task_context
  rw [hr]
  dsimp only
  rw [hs2, hr2]

theorem filter_marks_startRun (l : List StartImpl) :
    ((l.map fun i => Event.startImplRun i.id).filter Event.isMark) = [] := by
  induction l with
  | nil => rfl
  | cons i rest ih => simp [Event.isMark, ih]

theorem filter_marks_stopRun (f : Bool) (l : List StopImpl) :
    ((l.map fun i => Event.stopImplRun i.id f).filter Event.isMark) = [] := by
  induction l with
  | nil => rfl
  | cons i rest ih => simp [Event.isMark, ih]

/-- In a session whose hook implementations do not raise, the coarse
marks are exactly start dispatch, block, stop dispatch with the
classified `failed` value, and the block's termination is what the
caller observes. -/
theorem marks_task_context (s : PMState) (block : Outcome)
    (h1 : ∀ i ∈ s.startImpls, i.raises = false)
    (h2 : ∀ i ∈ finalStops s, i.raises = false) :
    marks (task_context s block)
        = [Event.startDispatch, Event.blockRun, Event.stopDispatch (classify block)]
      ∧ (task_context s block).2 = block := by
  rw [task_context_eq s block h1 h2]
  constructor
  · simp [marks, List.filter_append, filter_marks_startRun, filter_marks_stopRun,
      Event.isMark]
  · rfl

/-! Helper lemmas about discovery. -/

theorem resolveEP_imported_mono (w : World) (ep : EntryPoint) (n : String)
    (h : n ∈ w.imported) : n ∈ (resolveEP w ep).imported := by
  unfold resolveEP
  split
  · exact h
  · exact List.mem_append_left _ h

theorem foldl_resolveEP_imported_mono (eps : List EntryPoint) (w : World) (n : String)
    (h : n ∈ w.imported) : n ∈ (eps.foldl resolveEP w).imported := by
  induction eps generalizing w with
  | nil => exact h
  | cons ep rest ih => exact ih _ (resolveEP_imported_mono w ep n h)

theorem foldl_resolveEP_imports (eps : List EntryPoint) (w : World) (ep : EntryPoint)
    (h : ep ∈ eps) : ep.moduleName ∈ (eps.foldl resolveEP w).imported := by
  induction eps generalizing w with
  | nil => cases h
  | cons e rest ih =>
    rw [List.foldl_cons]
    rcases List.mem_cons.mp h with h1 | h1
    · subst h1
      apply foldl_resolveEP_imported_mono
      unfold resolveEP
      split
      · assumption
      · simp
    · exact ih _ h1

theorem foldl_resolveEP_noop (eps : List EntryPoint) (w : World)
    (h : ∀ ep ∈ eps, ep.moduleName ∈ w.imported) :
    eps.foldl resolveEP w = w := by
  induction eps with
  | nil => rfl
  | cons e rest ih =>
    have he : resolveEP w e = w := by
      unfold resolveEP
      rw [if_pos (h e (List.mem_cons_self _ _))]
    rw [List.foldl_cons, he]
    exact ih fun ep hep => h ep (List.mem_cons_of_mem _ hep)

/-! The claims. -/

/-- C1: for every protected block that returns normally, entering and
exiting the task context dispatches `task_start` exactly once, then runs
the block, then dispatches `task_stop` with `failed = false` exactly
once, in that order, and control returns normally to the caller.
(Stated for sessions whose hook implementations do not themselves raise;
raising hooks are the subject of C4 and C5.) -/
theorem normal_block_lifecycle (s : PMState)
    (h1 : ∀ i ∈ s.startImpls, i.raises = false)
    (h2 : ∀ i ∈ finalStops s, i.raises = false) :
    marks (task_context s Outcome.normal)
        = [Event.startDispatch, Event.blockRun, Event.stopDispatch false]
      ∧ (task_context s Outcome.normal).2 = Outcome.normal := by
  simpa [classify] using marks_task_context s Outcome.normal h1 h2

/-- Witness for C1 at a concrete registry. -/
theorem normal_block_lifecycle_witness :
    (∀ i ∈ (PMState.mk [⟨1, .ok⟩] [⟨2, .ok⟩]).startImpls, i.raises = false)
    ∧ marks (task_context (PMState.mk [⟨1, .ok⟩] [⟨2, .ok⟩]) Outcome.normal)
        = [Event.startDispatch, Event.blockRun, Event.stopDispatch false]
    ∧ (task_context (PMState.mk [⟨1, .ok⟩] [⟨2, .ok⟩]) Outcome.normal).2
        = Outcome.normal :=
  ⟨by decide,
   (normal_block_lifecycle (PMState.mk [⟨1, .ok⟩] [⟨2, .ok⟩]) (by decide) (by decide)).1,
   (normal_block_lifecycle (PMState.mk [⟨1, .ok⟩] [⟨2, .ok⟩]) (by decide) (by decide)).2⟩

/-- C2: for every protected block that raises an error, `task_stop` is
dispatched exactly once with `failed = true` before the very same error
propagates unchanged to the caller.  (Stated for sessions whose hook
implementations do not themselves raise; a raising stop hook is the
shadowing edge case of C5.) -/
theorem error_block_lifecycle (s : PMState) (e : Nat)
    (h1 : ∀ i ∈ s.startImpls, i.raises = false)
    (h2 : ∀ i ∈ finalStops s, i.raises = false) :
    marks (task_context s (Outcome.error e))
        = [Event.startDispatch, Event.blockRun, Event.stopDispatch true]
      ∧ (task_context s (Outcome.error e)).2 = Outcome.error e := by
  simpa [classify] using marks_task_context s (Outcome.error e) h1 h2

/-- Witness for C2 at a concrete registry and error. -/
theorem error_block_lifecycle_witness :
    (∀ i ∈ (PMState.mk [⟨1, .ok⟩] [⟨2, .ok⟩]).startImpls, i.raises = false)
    ∧ marks (task_context (PMState.mk [⟨1, .ok⟩] [⟨2, .ok⟩]) (Outcome.error 7))
        = [Event.startDispatch, Event.blockRun, Event.stopDispatch true]
    ∧ (task_context (PMState.mk [⟨1, .ok⟩] [⟨2, .ok⟩]) (Outcome.error 7)).2
        = Outcome.error 7 :=
  ⟨by decide,
   (error_block_lifecycle (PMState.mk [⟨1, .ok⟩] [⟨2, .ok⟩]) 7 (by decide) (by decide)).1,
   (error_block_lifecycle (PMState.mk [⟨1, .ok⟩] [⟨2, .ok⟩]) 7 (by decide) (by decide)).2⟩

/-- C3: for every protected block ending in an exit request with integer
status code `n`, `task_stop` is dispatched with `failed = (n != 0)` —
`false` for code 0, `true` for code 2 (see the witness) — and the caller
observes an exit request with the original, unmodified code. -/
theorem exit_block_lifecycle (s : PMState) (n : Int)
    (h1 : ∀ i ∈ s.startImpls, i.raises = false)
    (h2 : ∀ i ∈ finalStops s, i.raises = false) :
    marks (task_context s (Outcome.exit (PyCode.int n)))
        = [Event.startDispatch, Event.blockRun, Event.stopDispatch (n != 0)]
      ∧ (task_context s (Outcome.exit (PyCode.int n))).2
        = Outcome.exit (PyCode.int n) := by
  simpa [classify, PyCode.neZero] using
    marks_task_context s (Outcome.exit (PyCode.int n)) h1 h2

/-- Witness for C3 at codes 0 and 2: `failed = false` for code 0 and
`failed = true` for code 2, with the code observed unchanged. -/
theorem exit_block_lifecycle_witness :
    marks (task_context (PMState.mk [⟨1, .ok⟩] [⟨2, .ok⟩]) (Outcome.exit (PyCode.int 0)))
        = [Event.startDispatch, Event.blockRun, Event.stopDispatch false]
    ∧ (task_context (PMState.mk [⟨1, .ok⟩] [⟨2, .ok⟩]) (Outcome.exit (PyCode.int 0))).2
        = Outcome.exit (PyCode.int 0)
    ∧ marks (task_context (PMState.mk [⟨1, .ok⟩] [⟨2, .ok⟩]) (Outcome.exit (PyCode.int 2)))
        = [Event.startDispatch, Event.blockRun, Event.stopDispatch true]
    ∧ (task_context (PMState.mk [⟨1, .ok⟩] [⟨2, .ok⟩]) (Outcome.exit (PyCode.int 2))).2
        = Outcome.exit (PyCode.int 2) := by
  have h0 := exit_block_lifecycle (PMState.mk [⟨1, .ok⟩] [⟨2, .ok⟩]) 0 (by decide) (by decide)
  have h2 := exit_block_lifecycle (PMState.mk [⟨1, .ok⟩] [⟨2, .ok⟩]) 2 (by decide) (by decide)
  refine ⟨?_, h0.2, ?_, h2.2⟩
  · simpa using h0.1
  · simpa using h2.1

/-- C4: if a `task_start` implementation raises on session entry, no
`task_stop` implementation is invoked (indeed no `task_stop` dispatch
happens) for that session and the raised error propagates unchanged to
the caller of the task context. -/
theorem start_raise_no_stop (s : PMState) (block : Outcome) (e : Nat)
    (evs : List Event) (s1 : PMState)
    (h : runStartImpls s.startImpls s = (evs, s1, some e)) :
    (task_context s block).2 = Outcome.error e
    ∧ (∀ n f, Event.stopImplRun n f ∉ (task_context s block).1)
    ∧ (∀ f, Event.stopDispatch f ∉ (task_context s block).1) := by
  have hshape := runStartImpls_events_shape s.startImpls s
  rw [h] at hshape
  simp only at hshape
  unfold task_context
  rw [h]
  dsimp only
  refine ⟨rfl, ?_, ?_⟩
  · intro n f hmem
    rcases List.mem_cons.mp hmem with h1 | h1
    · exact Event.noConfusion h1
    · rcases hshape _ h1 with ⟨m, hm⟩
      exact Event.noConfusion hm
  · intro f hmem
    rcases List.mem_cons.mp hmem with h1 | h1
    · exact Event.noConfusion h1
    · rcases hshape _ h1 with ⟨m, hm⟩
      exact Event.noConfusion hm

/-- Witness for C4: a session whose single start implementation raises
error 9; the caller observes error 9 and no stop event occurs. -/
theorem start_raise_no_stop_witness :
    (task_context (PMState.mk [⟨1, .raise 9⟩] [⟨2, .ok⟩]) Outcome.normal).2
        = Outcome.error 9
    ∧ Event.stopImplRun 2 true
        ∉ (task_context (PMState.mk [⟨1, .raise 9⟩] [⟨2, .ok⟩]) Outcome.normal).1
    ∧ Event.stopDispatch true
        ∉ (task_context (PMState.mk [⟨1, .raise 9⟩] [⟨2, .ok⟩]) Outcome.normal).1 := by
  have h := start_raise_no_stop (PMState.mk [⟨1, .raise 9⟩] [⟨2, .ok⟩]) Outcome.normal 9
    [Event.startImplRun 1] (PMState.mk [⟨1, .raise 9⟩] [⟨2, .ok⟩]) (by decide)
  exact ⟨h.1, h.2.1 2 true, h.2.2 true⟩

/-- C5: if the protected block raises an error and a `task_stop`
implementation raises while unwinding, the stop hook's error is what the
caller of the task context observes, shadowing the block's original
error. -/
theorem stop_raise_shadows (s : PMState) (e e2 : Nat) (sevs : List Event)
    (h1 : ∀ i ∈ s.startImpls, i.raises = false)
    (h2 : runStopImpls true (finalStops s) = (sevs, some e2)) :
    (task_context s (Outcome.error e)).2 = Outcome.error e2 := by
  have he := runStartImpls_err s.startImpls s h1
  have hs := runStartImpls_state s.startImpls s h1
  rcases hr : runStartImpls s.startImpls s with ⟨evs, s1, err⟩
  rw [hr] at he hs
  simp only at he hs
  subst he
  have hs2 : s1.stopImpls = finalStops s := hs
  unfold task_context
  rw [hr]
  dsimp only
  rw [hs2]
  have hclass : classify (Outcome.error e) = true := rfl
  rw [hclass, h2]

/-- Witness for C5: the block raises error 3, the stop implementation
raises error 7, and the caller observes error 7. -/
theorem stop_raise_shadows_witness :
    (task_context (PMState.mk [⟨1, .ok⟩] [⟨2, .raise 7⟩]) (Outcome.error 3)).2
        = Outcome.error 7 :=
  stop_raise_shadows (PMState.mk [⟨1, .ok⟩] [⟨2, .raise 7⟩]) 3 7
    [Event.stopImplRun 2 true] (by decide) (by decide)

/-- C6: a hook dispatch invokes every currently registered
implementation of the spec, in registration order (the `k`-th invocation
is the `k`-th registered implementation), each bound to exactly the
subset of the call's kwargs it declared. -/
theorem call_dispatch (impls : List HookImpl) (kwargs : List (String × Nat))
    (k : Nat) (hk : k < impls.length) (hk2 : k < (call impls kwargs).length) :
    (call impls kwargs).map Prod.fst = impls.map HookImpl.id
    ∧ ((call impls kwargs).get ⟨k, hk2⟩).1 = (impls.get ⟨k, hk⟩).id
    ∧ ∀ kv, kv ∈ ((call impls kwargs).get ⟨k, hk2⟩).2
        ↔ kv ∈ kwargs ∧ kv.1 ∈ (impls.get ⟨k, hk⟩).declaredParams := by
  refine ⟨?_, ?_, ?_⟩
  · simp [call]
  · simp [call, List.get_eq_getElem]
  · intro kv
    simp [call, List.get_eq_getElem, List.mem_filter, List.contains, List.elem_iff]

/-- Witness for C6: two implementations declaring different parameter
subsets of a two-kwarg call; invocation order follows registration order
and each sees only its declared kwargs. -/
theorem call_dispatch_witness :
    (call [⟨1, ["failed"]⟩, ⟨2, []⟩] [("failed", 1), ("extra", 5)]).map Prod.fst
        = [1, 2]
    ∧ ((call [⟨1, ["failed"]⟩, ⟨2, []⟩] [("failed", 1), ("extra", 5)]).get
        ⟨0, by decide⟩).1 = 1
    ∧ (("failed", 1) ∈ ((call [⟨1, ["failed"]⟩, ⟨2, []⟩]
        [("failed", 1), ("extra", 5)]).get ⟨0, by decide⟩).2
        ↔ ("failed", 1) ∈ [(("failed", 1) : String × Nat), ("extra", 5)]
          ∧ "failed" ∈ ["failed"]) := by
  have h := call_dispatch [⟨1, ["failed"]⟩, ⟨2, []⟩] [("failed", 1), ("extra", 5)]
    0 (by decide) (by decide)
  exact ⟨h.1, h.2.1, h.2.2 ("failed", 1)⟩

/-- C7: a `task_stop` implementation registered by a `task_start`
implementation during the same session's start phase is part of that
session's stop-phase dispatch list (the registry is read live at call
time) and is invoked with the session's classified `failed` value. -/
theorem live_registry_stop (s : PMState) (block : Outcome) (impl : StopImpl)
    (hreg : impl ∈ registeredBy s.startImpls)
    (h1 : ∀ i ∈ s.startImpls, i.raises = false)
    (h2 : ∀ i ∈ finalStops s, i.raises = false) :
    impl ∈ finalStops s
    ∧ Event.stopImplRun impl.id (classify block) ∈ (task_context s block).1 := by
  have hf : impl ∈ finalStops s := List.mem_append_right _ hreg
  refine ⟨hf, ?_⟩
  rw [task_context_eq s block h1 h2]
  exact List.mem_append_right _ (List.mem_map_of_mem _ hf)

/-- Witness for C7: the start implementation registers stop
implementation 5; the block raises, and stop implementation 5 runs with
`failed = true`. -/
theorem live_registry_stop_witness :
    (⟨5, .ok⟩ : StopImpl) ∈ finalStops (PMState.mk [⟨1, .registerStop ⟨5, .ok⟩⟩] [])
    ∧ Event.stopImplRun 5 true
        ∈ (task_context (PMState.mk [⟨1, .registerStop ⟨5, .ok⟩⟩] [])
            (Outcome.error 3)).1 := by
  have h := live_registry_stop (PMState.mk [⟨1, .registerStop ⟨5, .ok⟩⟩] [])
    (Outcome.error 3) ⟨5, .ok⟩ (by decide) (by decide) (by decide)
  exact ⟨h.1, h.2⟩

/-- C8: invoking discovery twice back-to-back yields the same world as
invoking it once: the effective registered-implementation set is
unchanged (no duplicates, none missing) and no import side effect occurs
beyond the first resolution of each candidate. -/
theorem resolve_hooks_idempotent (console hooks : List EntryPoint) (w : World) :
    resolve_hooks console hooks (resolve_hooks console hooks w)
      = resolve_hooks console hooks w := by
  unfold resolve_hooks
  generalize console.filter (fun ep => ep.moduleName.startsWith "pubtools") = c
  have hc : ∀ ep ∈ c,
      ep.moduleName ∈ (hooks.foldl resolveEP (c.foldl resolveEP w)).imported :=
    fun ep hep =>
      foldl_resolveEP_imported_mono hooks _ _ (foldl_resolveEP_imports c w ep hep)
  have hh : ∀ ep ∈ hooks,
      ep.moduleName ∈ (hooks.foldl resolveEP (c.foldl resolveEP w)).imported :=
    fun ep hep => foldl_resolveEP_imports hooks _ ep hep
  rw [foldl_resolveEP_noop c _ hc, foldl_resolveEP_noop hooks _ hh]

/-- C9: a protected block exiting via a raised signal that is neither a
normal error nor an exit request (a `BaseException` such as
`KeyboardInterrupt`, matching neither except clause) still gets
`task_stop` dispatched, with `failed = true` (the value the flag was
initialized to before the block), and the signal then propagates to the
caller. -/
theorem signal_block_lifecycle (s : PMState) (k : Nat)
    (h1 : ∀ i ∈ s.startImpls, i.raises = false)
    (h2 : ∀ i ∈ finalStops s, i.raises = false) :
    marks (task_context s (Outcome.signal k))
        = [Event.startDispatch, Event.blockRun, Event.stopDispatch true]
      ∧ (task_context s (Outcome.signal k)).2 = Outcome.signal k := by
  simpa [classify] using marks_task_context s (Outcome.signal k) h1 h2

/-- Witness for C9 at a concrete registry and signal. -/
theorem signal_block_lifecycle_witness :
    marks (task_context (PMState.mk [⟨1, .ok⟩] [⟨2, .ok⟩]) (Outcome.signal 4))
        = [Event.startDispatch, Event.blockRun, Event.stopDispatch true]
    ∧ (task_context (PMState.mk [⟨1, .ok⟩] [⟨2, .ok⟩]) (Outcome.signal 4)).2
        = Outcome.signal 4 :=
  ⟨(signal_block_lifecycle (PMState.mk [⟨1, .ok⟩] [⟨2, .ok⟩]) 4 (by decide) (by decide)).1,
   (signal_block_lifecycle (PMState.mk [⟨1, .ok⟩] [⟨2, .ok⟩]) 4 (by decide) (by decide)).2⟩

/-- C10: an exit request whose code is `None` (a bare `sys.exit()`,
which terminates the process successfully) is classified as failed,
because the code value is tested literally against 0 (`exit.code != 0`)
rather than via the resulting process exit status; likewise any string
code.  `task_stop` is dispatched with `failed = true` in both cases. -/
theorem exit_none_code_failed (s : PMState) (m : String)
    (h1 : ∀ i ∈ s.startImpls, i.raises = false)
    (h2 : ∀ i ∈ finalStops s, i.raises = false) :
    PyCode.neZero PyCode.none = true
    ∧ PyCode.neZero (PyCode.str m) = true
    ∧ marks (task_context s (Outcome.exit PyCode.none))
        = [Event.startDispatch, Event.blockRun, Event.stopDispatch true]
    ∧ marks (task_context s (Outcome.exit (PyCode.str m)))
        = [Event.startDispatch, Event.blockRun, Event.stopDispatch true] := by
  refine ⟨rfl, rfl, ?_, ?_⟩
  · simpa [classify, PyCode.neZero] using
      (marks_task_context s (Outcome.exit PyCode.none) h1 h2).1
  · simpa [classify, PyCode.neZero] using
      (marks_task_context s (Outcome.exit (PyCode.str m)) h1 h2).1

/-- Witness for C10 at a concrete registry, a `None` code and a string
code. -/
theorem exit_none_code_failed_witness :
    PyCode.neZero PyCode.none = true
    ∧ PyCode.neZero (PyCode.str "boom") = true
    ∧ marks (task_context (PMState.mk [⟨1, .ok⟩] [⟨2, .ok⟩]) (Outcome.exit PyCode.none))
        = [Event.startDispatch, Event.blockRun, Event.stopDispatch true]
    ∧ marks (task_context (PMState.mk [⟨1, .ok⟩] [⟨2, .ok⟩])
        (Outcome.exit (PyCode.str "boom")))
        = [Event.startDispatch, Event.blockRun, Event.stopDispatch true] :=
  exit_none_code_failed (PMState.mk [⟨1, .ok⟩] [⟨2, .ok⟩]) "boom" (by decide) (by decide)

end Pubtools
